import Mathlib

/-!
# Verification of the HSN validation/suggestion engines

Shallow embedding of `src/data_handler.py`, `src/hsn_validator.py` and
`src/hsn_suggester.py`.  Strings are modelled as Lean `String` restricted to
the ASCII fragment the catalog uses; Python float scores are modelled as `ℚ`
where the code only routes, compares and copies them, and as `ℝ` for the
TF-IDF mathematics.  Python string helpers (`lower`, `strip`, `split`,
slicing, `in`) are re-implemented structurally over `List Char` so that all
catalog-level definitions compute.
-/

namespace HSN

/-- Models Python `str.lower()` (ASCII). -/
def lowerStr (s : String) : String := String.mk (s.toList.map Char.toLower)

/-- Models Python `str.strip()`: drop whitespace from both ends. -/
def stripStr (s : String) : String :=
  String.mk (((s.toList.dropWhile Char.isWhitespace).reverse.dropWhile
    Char.isWhitespace).reverse)

/-- Models Python slicing `s[:n]`. -/
def strTake (s : String) (n : ℕ) : String := String.mk (s.toList.take n)

/-- Does `pre` start the list `l`?  (helper for substring search). -/
def startsWithChars : List Char → List Char → Bool
  | [], _ => true
  | _ :: _, [] => false
  | c :: cs, h :: hs => c == h && startsWithChars cs hs

/-- Models Python `needle in hay` substring membership on char lists. -/
def strContains (hay needle : List Char) : Bool :=
  match hay with
  | [] => needle.isEmpty
  | _ :: rest => startsWithChars needle hay || strContains rest needle

/-- Models Python `str.split()` with no argument: split on runs of
whitespace, discarding empty pieces.  `acc` holds the current word
reversed. -/
def wordsAux : List Char → List Char → List String
  | [], acc => if acc.isEmpty then [] else [String.mk acc.reverse]
  | c :: cs, acc =>
    if c.isWhitespace then
      if acc.isEmpty then wordsAux cs [] else String.mk acc.reverse :: wordsAux cs []
    else wordsAux cs (c :: acc)

/-- Python `s.split()`. -/
def pySplit (s : String) : List String := wordsAux s.toList []

/-- Models Python `str.isdigit` on the ASCII fragment: nonempty and all
characters decimal digits. -/
def pyIsDigit (s : String) : Bool := !s.toList.isEmpty && s.toList.all Char.isDigit

/-!
## Data handler (`src/data_handler.py`)

The engines consume the handler only after `_clean_data` has run, so
`hsn_data` is the cleaned, insertion-ordered list of
`(HSNCode, Description)` rows and `hsn_lookup` is the derived
code-to-description map (modelled by first-match search, which agrees with
the Python dict because `_clean_data` removed duplicate codes).
-/

structure HSNDataHandler where
  hsn_data : List (String × String)
deriving DecidableEq

/-- `HSNDataHandler.get_hsn_info`: strip the queried code, then look it up,
returning the stripped code together with the stored description. -/
def get_hsn_info (dh : HSNDataHandler) (hsn_code : String) : Option (String × String) :=
  let c := stripStr hsn_code
  match dh.hsn_data.find? (fun r => r.1 == c) with
  | some r => some (c, r.2)
  | none => none

/-- `HSNDataHandler.search_by_description`: lowercase and strip the query,
keep the first `limit` rows whose lowercased description contains it as a
substring (pandas `str.contains` with `regex=False`). -/
def search_by_description (dh : HSNDataHandler) (query : String) (limit : ℕ) :
    List (String × String) :=
  let q := stripStr (lowerStr query)
  (dh.hsn_data.filter (fun r => strContains (lowerStr r.2).toList q.toList)).take limit

/-!
## Validator (`src/hsn_validator.py`)
-/

/-- `HSNValidator.valid_lengths`. -/
def valid_lengths : List ℕ := [2, 4, 6, 8]

structure FormatResult where
  valid : Bool
  error : Option String
  original_code : String
  cleaned_code : String
  length : Option ℕ
deriving DecidableEq

/-- `HSNValidator.validate_format`: strip every non-digit character
(`re.sub(r'[^0-9]', '', ...)`), then require a Python-`isdigit` string whose
length is one of the valid lengths. -/
def validate_format (hsn_code : String) : FormatResult :=
  let cleaned_code := String.mk (hsn_code.toList.filter Char.isDigit)
  if pyIsDigit cleaned_code = false then
    { valid := false
      error := some "HSN code must contain only numbers"
      original_code := hsn_code
      cleaned_code := cleaned_code
      length := none }
  else if cleaned_code.length ∈ valid_lengths then
    { valid := true
      error := none
      original_code := hsn_code
      cleaned_code := cleaned_code
      length := some cleaned_code.length }
  else
    { valid := false
      error := some ("HSN code must be " ++
        String.intercalate ", " (valid_lengths.map toString) ++
        " digits. Got " ++ toString cleaned_code.length ++ " digits")
      original_code := hsn_code
      cleaned_code := cleaned_code
      length := none }

structure ExistenceResult where
  exists_ : Bool
  hsn_code : String
  description : Option String
deriving DecidableEq

/-- `HSNValidator.validate_existence` (the Python dict's `exists` key is the
field `exists_`, `exists` being reserved in Lean). -/
def validate_existence (dh : HSNDataHandler) (hsn_code : String) : ExistenceResult :=
  match get_hsn_info dh hsn_code with
  | some info => { exists_ := true, hsn_code := info.1, description := some info.2 }
  | none => { exists_ := false, hsn_code := hsn_code, description := none }

structure HierResult where
  hierarchical_valid : Bool
  parent_codes : List String
  valid_parents : List String
  missing_parents : List String
deriving DecidableEq

/-- The `for length in [2, 4, 6]` loop of `validate_hierarchical`,
accumulating `(parent_codes, valid_parents, missing_parents)`. -/
def hierLoop (dh : HSNDataHandler) (hsn_code : String) :
    List ℕ → List String × List String × List String →
      List String × List String × List String
  | [], acc => acc
  | l :: ls, acc =>
    if l < hsn_code.length then
      let parent_code := strTake hsn_code l
      if (get_hsn_info dh parent_code).isSome then
        hierLoop dh hsn_code ls (acc.1 ++ [parent_code], acc.2.1 ++ [parent_code], acc.2.2)
      else
        hierLoop dh hsn_code ls (acc.1 ++ [parent_code], acc.2.1, acc.2.2 ++ [parent_code])
    else hierLoop dh hsn_code ls acc

/-- `HSNValidator.validate_hierarchical`. -/
def validate_hierarchical (dh : HSNDataHandler) (hsn_code : String) : HierResult :=
  if hsn_code.length ≤ 2 then
    { hierarchical_valid := true, parent_codes := [], valid_parents := [],
      missing_parents := [] }
  else
    let acc := hierLoop dh hsn_code [2, 4, 6] ([], [], [])
    { hierarchical_valid := acc.2.2.isEmpty
      parent_codes := acc.1
      valid_parents := acc.2.1
      missing_parents := acc.2.2 }

structure ValidationResult where
  overall_valid : Bool
  hsn_code : String
  cleaned_code : String
  format_valid : Bool
  exists_ : Bool
  description : Option String
  hierarchical_valid : Bool
  error : Option String
  parent_codes : List String
  valid_parents : List String
  missing_parents : List String
deriving DecidableEq

/-- `HSNValidator.full_validation`.  On format failure the Python dict
carries no `description` key and no parent lists; those are modelled as
`none` / `[]`.  On success the dict carries no `error` key (`none` here) and
`description` is the existence result's description
(`.get('description', ...)` finds the key present, possibly `None`). -/
def full_validation (dh : HSNDataHandler) (hsn_code : String) : ValidationResult :=
  let format_result := validate_format hsn_code
  if format_result.valid = false then
    { overall_valid := false
      hsn_code := format_result.original_code
      cleaned_code := format_result.cleaned_code
      format_valid := false
      exists_ := false
      description := none
      hierarchical_valid := false
      error := format_result.error
      parent_codes := []
      valid_parents := []
      missing_parents := [] }
  else
    let cleaned_code := format_result.cleaned_code
    let existence_result := validate_existence dh cleaned_code
    let hierarchical_result := validate_hierarchical dh cleaned_code
    { overall_valid := format_result.valid && existence_result.exists_ &&
        hierarchical_result.hierarchical_valid
      hsn_code := format_result.original_code
      cleaned_code := cleaned_code
      format_valid := format_result.valid
      exists_ := existence_result.exists_
      description := existence_result.description
      hierarchical_valid := hierarchical_result.hierarchical_valid
      error := none
      parent_codes := hierarchical_result.parent_codes
      valid_parents := hierarchical_result.valid_parents
      missing_parents := hierarchical_result.missing_parents }

/-- `HSNValidator.validate_multiple`. -/
def validate_multiple (dh : HSNDataHandler) (hsn_codes : List String) :
    List ValidationResult :=
  hsn_codes.map (full_validation dh)

/-!
## Suggestion engine (`src/hsn_suggester.py`)

The code's only use of numpy/sklearn inside `suggest_hsn_codes` is the
two-line computation of the cosine-similarity row
(`vectorizer.transform` + `cosine_similarity`, lines 71–74); everything
after it is plain list manipulation of that row.  We embed that remainder
as a function of the similarity row (scores as `ℚ`), and model the fallible
similarity computation as an `Except` input: `ok sims` for a computed row,
`error` for the library raising — exactly the `try`/`except` split of
lines 69–119.
-/

/-- Sorting key for `np.argsort`: ascending value, ties by ascending
position.  `np.argsort`'s default sort leaves the order of equal elements
unspecified in general; this model realizes it as the stable one (the
insertion sort numpy in fact runs below its 16-element cutoff, which covers
every concrete array in this file).  General theorems proved over
`revArgsort` below do not depend on the tie order; tie-dependent facts are
only stated for such concrete small arrays. -/
def argsortRel {α : Type} [LinearOrder α] (p q : ℕ × α) : Prop :=
  p.2 < q.2 ∨ (p.2 = q.2 ∧ p.1 ≤ q.1)

instance argsortRelDecidable {α : Type} [LinearOrder α] : DecidableRel (@argsortRel α _) :=
  fun _ _ => inferInstanceAs (Decidable (_ ∨ _))

/-- `np.argsort(l)[::-1]`: indices of `l` sorted by descending value.
Under this model's realization of the unspecified tie order (see
`argsortRel`), equal values end up in descending position order after the
reversal. -/
def revArgsort {α : Type} [LinearOrder α] (l : List α) : List ℕ :=
  ((List.insertionSort argsortRel l.enum).map Prod.fst).reverse

structure Suggestion where
  hsn_code : String
  description : String
  similarity_score : ℚ
  confidence_level : String
  match_type : String
deriving DecidableEq

/-- `HSNSuggester.min_similarity_threshold` (Python float `0.1`). -/
def min_similarity_threshold : ℚ := mkRat 1 10

/-- `HSNSuggester._get_confidence_level`. -/
def get_confidence_level (similarity_score : ℚ) : String :=
  if mkRat 7 10 ≤ similarity_score then "High"
  else if mkRat 4 10 ≤ similarity_score then "Medium"
  else if mkRat 2 10 ≤ similarity_score then "Low"
  else "Very Low"

/-- Inner loop of `_keyword_based_search` over one keyword's search results:
append unseen rows with the keyword-match fields, stopping once `limit`
suggestions have been gathered. -/
def kwInner (limit : ℕ) : List (String × String) → List Suggestion → List String →
    List Suggestion × List String
  | [], sugg, seen => (sugg, seen)
  | r :: rs, sugg, seen =>
    if r.1 ∈ seen then kwInner limit rs sugg seen
    else
      let sugg' := sugg ++ [⟨r.1, r.2, mkRat 1 10, "Low", "keyword_search"⟩]
      let seen' := r.1 :: seen
      if limit ≤ sugg'.length then (sugg', seen')
      else kwInner limit rs sugg' seen'

/-- Outer loop of `_keyword_based_search` over the query's keywords: skip
keywords of length ≤ 2, search each remaining keyword with cap
`limit * 2`, and stop as soon as `limit` suggestions have been gathered. -/
def kwOuter (dh : HSNDataHandler) (limit : ℕ) :
    List String → List Suggestion → List String → List Suggestion
  | [], sugg, _ => sugg
  | kw :: kws, sugg, seen =>
    if 2 < kw.length then
      let res := kwInner limit (search_by_description dh kw (limit * 2)) sugg seen
      if limit ≤ res.1.length then res.1
      else kwOuter dh limit kws res.1 res.2
    else kwOuter dh limit kws sugg seen

/-- `HSNSuggester._keyword_based_search`. -/
def keyword_based_search (dh : HSNDataHandler) (product_description : String)
    (limit : ℕ) : List Suggestion :=
  (kwOuter dh limit (pySplit (lowerStr product_description)) [] []).take limit

/-- The suggestion built from catalog row `idx` on the vector path. -/
def mkVecSuggestion (dh : HSNDataHandler) (sims : List ℚ) (idx : ℕ) : Suggestion :=
  let similarity_score := sims.getD idx 0
  let row := dh.hsn_data.getD idx ("", "")
  ⟨row.1, row.2, similarity_score, get_confidence_level similarity_score,
    "ml_similarity"⟩

/-- The `for idx in top_indices` loop of `suggest_hsn_codes`: keep indices
whose score meets the threshold, deduplicate by code, stop at `top_k`. -/
def vecLoop (dh : HSNDataHandler) (sims : List ℚ) (top_k : ℕ) :
    List ℕ → List Suggestion → List String → List Suggestion × List String
  | [], sugg, seen => (sugg, seen)
  | idx :: rest, sugg, seen =>
    if min_similarity_threshold ≤ sims.getD idx 0 then
      let row := dh.hsn_data.getD idx ("", "")
      if row.1 ∈ seen then vecLoop dh sims top_k rest sugg seen
      else
        let sugg' := sugg ++ [mkVecSuggestion dh sims idx]
        let seen' := row.1 :: seen
        if top_k ≤ sugg'.length then (sugg', seen')
        else vecLoop dh sims top_k rest sugg' seen'
    else vecLoop dh sims top_k rest sugg seen

/-- `top_indices` of `suggest_hsn_codes`:
`np.argsort(similarities)[::-1][:top_k * 2]`. -/
def topIndices (sims : List ℚ) (top_k : ℕ) : List ℕ :=
  (revArgsort sims).take (top_k * 2)

/-- The vector-similarity portion of `suggest_hsn_codes` (lines 77–103). -/
def vectorSuggestions (dh : HSNDataHandler) (sims : List ℚ) (top_k : ℕ) :
    List Suggestion :=
  (vecLoop dh sims top_k (topIndices sims top_k) [] []).1

/-- Lines 77–114 of `suggest_hsn_codes`: the vector loop over the computed
similarity row, then — when it produced fewer than `top_k` suggestions — the
keyword fallback, whose results are appended only when their code was not
already seen (without updating `seen_codes`), and the final `[:top_k]`. -/
def suggestFromScores (dh : HSNDataHandler) (sims : List ℚ)
    (product_description : String) (top_k : ℕ) : List Suggestion :=
  let p := vecLoop dh sims top_k (topIndices sims top_k) [] []
  let final :=
    if p.1.length < top_k then
      p.1 ++ (keyword_based_search dh product_description (top_k - p.1.length)).filter
        (fun s => !decide (s.hsn_code ∈ p.2))
    else p.1
  final.take top_k

/-- `HSNSuggester.suggest_hsn_codes`: empty/whitespace-only query returns
`[]` before anything else; then the similarity row is either computed
(`Except.ok`) and handed to the loop, or the library raised
(`Except.error`) and the whole query goes to `_keyword_based_search` with
limit `top_k`. -/
def suggest_hsn_codes (dh : HSNDataHandler) (simsOrErr : Except Unit (List ℚ))
    (product_description : String) (top_k : ℕ) : List Suggestion :=
  if stripStr product_description = "" then []
  else
    match simsOrErr with
    | Except.ok sims => suggestFromScores dh sims product_description top_k
    | Except.error _ => keyword_based_search dh product_description top_k

/-- The catalog insertion index of a code: position of the first row
carrying it. -/
def rowIndex (dh : HSNDataHandler) (code : String) : ℕ :=
  List.indexOf code (dh.hsn_data.map Prod.fst)

/-!
## Concrete catalogs used as witnesses and counterexamples
-/

/-- The spec's worked scenario catalog (§8). -/
def dh0 : HSNDataHandler :=
  ⟨[("01", "Live animals"), ("0101", "Live horses"),
    ("010110", "Pure-bred breeding horses")]⟩

def dhEmpty : HSNDataHandler := ⟨[]⟩

/-- Two rows sharing a description prefix; used to exhibit tie-breaking. -/
def dh4 : HSNDataHandler := ⟨[("10", "aa bb"), ("20", "aa cc")]⟩

/-- Two rows both matching the keyword "apple". -/
def dh7 : HSNDataHandler := ⟨[("10", "apple pie"), ("20", "apple tart")]⟩

/-- One row containing the words of the query in the other order. -/
def dh8 : HSNDataHandler := ⟨[("10", "pie apple crumble")]⟩

/-- Three distinct codes for the candidate-window counterexample. -/
def dh10 : HSNDataHandler := ⟨[("10", "a"), ("20", "b"), ("30", "c")]⟩

/-!
## Similarity Index (spec §4.3)

Modelled from the spec: the TF-IDF similarity index the suggester builds in
`_prepare_vectors` and queries in `suggest_hsn_codes` lives in the sklearn
library (`TfidfVectorizer`, `cosine_similarity`), whose code is not part of
this repository; §4.3 of the spec describes it precisely and the model
below follows those words: case-folded tokens of at least two word
characters, a fixed English stop-word set removed, unigrams and bigrams,
document-frequency band [1, 95%], a vocabulary capped at 5000 terms (ties
by global frequency), smoothed-idf TF-IDF weights, and cosine scores of
L2-normalized vectors (zero vectors scoring 0).
-/

/-- Modelled from the spec: "a fixed stop-word set removed" — common
English stop words (ASCII fragment of sklearn's list). -/
def tfidf_stop_words : List String :=
  ["a", "about", "above", "after", "again", "all", "also", "am", "an",
   "and", "any", "are", "as", "at", "be", "because", "been", "before",
   "being", "below", "between", "both", "but", "by", "can", "could",
   "did", "do", "does", "down", "during", "each", "few", "for", "from",
   "further", "had", "has", "have", "having", "he", "her", "here",
   "hers", "him", "his", "how", "i", "if", "in", "into", "is", "it",
   "its", "just", "me", "more", "most", "my", "no", "nor", "not", "now",
   "of", "off", "on", "once", "only", "or", "other", "our", "ours",
   "out", "over", "own", "same", "she", "should", "so", "some", "such",
   "than", "that", "the", "their", "them", "then", "there", "these",
   "they", "this", "those", "through", "to", "too", "under", "until",
   "up", "very", "was", "we", "were", "what", "when", "where", "which",
   "while", "who", "whom", "why", "will", "with", "you", "your"]

/-- Word characters for tokenization (the `\w\w+` token pattern). -/
def isWordChar (c : Char) : Bool := c.isAlphanum

/-- Case-fold, replace non-word characters by blanks, split, and keep
tokens of length at least 2. -/
def rawTokens (s : String) : List String :=
  (pySplit (String.mk ((lowerStr s).toList.map
    (fun c => if isWordChar c then c else ' ')))).filter
    (fun t => 2 ≤ t.length)

/-- Unigrams: raw tokens with stop words removed (before n-gram
formation, as sklearn does). -/
def unigramsOf (s : String) : List String :=
  (rawTokens s).filter (fun t => !decide (t ∈ tfidf_stop_words))

/-- Bigrams over a token list. -/
def bigramsOf (ts : List String) : List String :=
  (ts.zip ts.tail).map (fun p => p.1 ++ " " ++ p.2)

/-- The terms of one text: unigrams then bigrams. -/
def tokensOf (s : String) : List String :=
  unigramsOf s ++ bigramsOf (unigramsOf s)

/-- Document frequency of a term over the corpus. -/
def docFreq (docs : List String) (t : String) : ℕ :=
  (docs.filter (fun d => decide (t ∈ tokensOf d))).length

/-- Raw count of a term in one text. -/
def termCount (t : String) (text : String) : ℕ :=
  ((tokensOf text).filter (fun u => u == t)).length

/-- Total corpus frequency of a term (the vocabulary-cap tie-breaker). -/
def globalFreq (docs : List String) (t : String) : ℕ :=
  (docs.map (termCount t)).sum

/-- The document-frequency band: `min_df = 1`, `max_df = 0.95` (the upper
bound `df ≤ 0.95 · n` written integrally as `100 · df ≤ 95 · n`). -/
def dfOk (docs : List String) (t : String) : Bool :=
  1 ≤ docFreq docs t ∧ 100 * docFreq docs t ≤ 95 * docs.length

/-- Byte-wise lexicographic order on strings (sklearn sorts feature names
alphabetically). -/
def charListLe : List Char → List Char → Bool
  | [], _ => true
  | _ :: _, [] => false
  | a :: as, b :: bs => if a = b then charListLe as bs else a.toNat < b.toNat

def strLe (a b : String) : Bool := charListLe a.toList b.toList

def max_features : ℕ := 5000

/-- The vocabulary: distinct in-band terms, capped at `max_features` by
global frequency, listed alphabetically. -/
def vocabOf (docs : List String) : List String :=
  let ts := ((docs.map tokensOf).flatten.dedup).filter (dfOk docs)
  let kept :=
    if ts.length ≤ max_features then ts
    else (List.insertionSort (fun a b => globalFreq docs b ≤ globalFreq docs a) ts).take
      max_features
  List.insertionSort (fun a b => strLe a b = true) kept

/-- Smoothed inverse document frequency:
`idf t = ln((1 + n) / (1 + df t)) + 1`. -/
noncomputable def idf (docs : List String) (t : String) : ℝ :=
  Real.log ((1 + docs.length) / (1 + docFreq docs t)) + 1

/-- The raw (unnormalized) TF-IDF vector of a text over the corpus
vocabulary; terms outside the vocabulary are dropped. -/
noncomputable def weightVec (docs : List String) (text : String) : List ℝ :=
  (vocabOf docs).map (fun t => (termCount t text : ℝ) * idf docs t)

/-- Dot product of two weight vectors. -/
noncomputable def dotp (u v : List ℝ) : ℝ :=
  ∑ i ∈ Finset.range (min u.length v.length), u.getD i 0 * v.getD i 0

/-- Euclidean norm of a weight vector. -/
noncomputable def l2norm (v : List ℝ) : ℝ :=
  Real.sqrt (∑ i ∈ Finset.range v.length, v.getD i 0 ^ 2)

/-- Cosine similarity.  Division by a vanishing norm yields 0, matching
sklearn's convention that a zero vector stays zero under normalization and
scores 0 against everything. -/
noncomputable def cosSim (u v : List ℝ) : ℝ :=
  dotp u v / (l2norm u * l2norm v)

/-- The similarity row of a query against every catalog description
(`cosine_similarity(query_vector, description_vectors).flatten()`). -/
noncomputable def tfidfSims (docs : List String) (q : String) : List ℝ :=
  docs.map (fun d => cosSim (weightVec docs q) (weightVec docs d))

/-- The ranked entry indices the similarity query yields
(`np.argsort(similarities)[::-1]` over the full row). -/
noncomputable def queryRanking (docs : List String) (q : String) : List ℕ :=
  revArgsort (tfidfSims docs q)

/-- The corpus for the rank-0 counterexample: two descriptions that differ
as text but tokenize identically ("the" is a stop word and "a" is below the
token length floor). -/
def docs9 : List String := ["the fox", "a fox", "dog"]

/-- Modelled from the spec: "full keyword fallback over the whole query
string (not token-split)" (§4.4 step 5) — a substring search of the entire
query over the catalog descriptions, results carrying the keyword-fallback
fields. -/
def whole_string_keyword_search (dh : HSNDataHandler) (query : String)
    (limit : ℕ) : List Suggestion :=
  ((search_by_description dh query (limit * 2)).map
    (fun r => (⟨r.1, r.2, mkRat 1 10, "Low", "keyword_search"⟩ : Suggestion))).take limit

/-!
## Validator theorems (C1–C3)
-/

lemma validate_format_cleaned (hsn_code : String) :
    (validate_format hsn_code).cleaned_code =
      String.mk (hsn_code.toList.filter Char.isDigit) := by
  unfold validate_format
  dsimp only
  split_ifs <;> rfl

lemma validate_format_all_digits (hsn_code : String) :
    (validate_format hsn_code).cleaned_code.toList.all Char.isDigit = true := by
  rw [validate_format_cleaned]
  simp [List.all_eq_true]

lemma validate_format_error_of_not_valid (hsn_code : String)
    (h : (validate_format hsn_code).valid = false) :
    ∃ e, (validate_format hsn_code).error = some e ∧ e ≠ "" := by
  unfold validate_format at h ⊢
  dsimp only at h ⊢
  split_ifs at h ⊢ with h1 h2
  · exact ⟨_, rfl, by decide⟩
  · refine ⟨_, rfl, fun hc => ?_⟩
    have h0 := congrArg String.length hc
    simp [String.length_append] at h0
    exact absurd h0.1.1.1.1 (by decide)

/-- C1: `full_validation` runs format validation first; on a format-invalid
cleaned code it reports every flag false with a non-empty error and without
consulting the catalog (the result does not depend on the data handler);
on format success it reports the existence and hierarchy checks of the
cleaned code and `overall_valid` is their conjunction with `format_valid`.
(The embedding is total, so no exception can be raised.) -/
theorem full_validation_orchestration (dh dh' : HSNDataHandler) (hsn_code : String) :
    ((validate_format hsn_code).valid = false →
      (full_validation dh hsn_code).overall_valid = false ∧
      (full_validation dh hsn_code).format_valid = false ∧
      (full_validation dh hsn_code).exists_ = false ∧
      (full_validation dh hsn_code).hierarchical_valid = false ∧
      (∃ e, (full_validation dh hsn_code).error = some e ∧ e ≠ "") ∧
      full_validation dh hsn_code = full_validation dh' hsn_code) ∧
    ((validate_format hsn_code).valid = true →
      (full_validation dh hsn_code).format_valid = true ∧
      (full_validation dh hsn_code).exists_ =
        (validate_existence dh (validate_format hsn_code).cleaned_code).exists_ ∧
      (full_validation dh hsn_code).hierarchical_valid =
        (validate_hierarchical dh (validate_format hsn_code).cleaned_code).hierarchical_valid ∧
      (full_validation dh hsn_code).overall_valid =
        ((full_validation dh hsn_code).format_valid &&
          (full_validation dh hsn_code).exists_ &&
          (full_validation dh hsn_code).hierarchical_valid)) := by
  constructor
  · intro h
    have herr := validate_format_error_of_not_valid hsn_code h
    unfold full_validation
    dsimp only
    rw [if_pos h]
    rw [if_pos h]
    refine ⟨rfl, rfl, rfl, rfl, herr, rfl⟩
  · intro h
    have h' : ¬ ((validate_format hsn_code).valid = false) := by simp [h]
    unfold full_validation
    dsimp only
    rw [if_neg h']
    refine ⟨h, rfl, rfl, ?_⟩
    simp [h]

theorem full_validation_orchestration_witness :
    ((validate_format "abc").valid = false ∧
      ((full_validation dh0 "abc").overall_valid = false ∧
       (full_validation dh0 "abc").format_valid = false ∧
       (full_validation dh0 "abc").exists_ = false ∧
       (full_validation dh0 "abc").hierarchical_valid = false ∧
       (∃ e, (full_validation dh0 "abc").error = some e ∧ e ≠ "") ∧
       full_validation dh0 "abc" = full_validation dhEmpty "abc")) ∧
    ((validate_format "010110").valid = true ∧
      ((full_validation dh0 "010110").format_valid = true ∧
       (full_validation dh0 "010110").exists_ =
         (validate_existence dh0 (validate_format "010110").cleaned_code).exists_ ∧
       (full_validation dh0 "010110").hierarchical_valid =
         (validate_hierarchical dh0 (validate_format "010110").cleaned_code).hierarchical_valid ∧
       (full_validation dh0 "010110").overall_valid =
         ((full_validation dh0 "010110").format_valid &&
           (full_validation dh0 "010110").exists_ &&
           (full_validation dh0 "010110").hierarchical_valid))) :=
  ⟨⟨by decide, (full_validation_orchestration dh0 dhEmpty "abc").1 (by decide)⟩,
   ⟨by decide, (full_validation_orchestration dh0 dhEmpty "010110").2 (by decide)⟩⟩

lemma validate_format_valid_iff (hsn_code : String) :
    (validate_format hsn_code).valid = true ↔
      (String.mk (hsn_code.toList.filter Char.isDigit)).length ∈ valid_lengths := by
  unfold validate_format
  dsimp only
  split_ifs with h1 h2
  · simp only [pyIsDigit, Bool.and_eq_false_iff, Bool.not_eq_false',
      List.all_eq_false] at h1
    rcases h1 with h1 | ⟨c, hc, hcd⟩
    · have hnil : hsn_code.data.filter Char.isDigit = [] := by
        simpa using h1
      simp [String.length, hnil, valid_lengths]
    · exact absurd (List.of_mem_filter hc) (by simpa using hcd)
  · simp only [true_iff]
    exact h2
  · simp only [Bool.false_eq_true, false_iff]
    exact h2

/-- C2: `validate_format` succeeds exactly when the cleaned (digit-only)
form of the input is non-empty, entirely digits, and of length 2, 4, 6 or
8; consequently a code whose cleaned form has any other length fails
format validation and the whole validation. -/
theorem validate_format_characterization (hsn_code : String) (dh : HSNDataHandler) :
    ((validate_format hsn_code).valid = true ↔
      ((validate_format hsn_code).cleaned_code ≠ "" ∧
       (validate_format hsn_code).cleaned_code.toList.all Char.isDigit = true ∧
       (validate_format hsn_code).cleaned_code.length ∈ ([2, 4, 6, 8] : List ℕ))) ∧
    ((validate_format hsn_code).cleaned_code.length ∉ ([2, 4, 6, 8] : List ℕ) →
      (full_validation dh hsn_code).format_valid = false ∧
      (full_validation dh hsn_code).overall_valid = false) := by
  have hdig := validate_format_all_digits hsn_code
  have hiff : (validate_format hsn_code).valid = true ↔
      ((validate_format hsn_code).cleaned_code ≠ "" ∧
       (validate_format hsn_code).cleaned_code.toList.all Char.isDigit = true ∧
       (validate_format hsn_code).cleaned_code.length ∈ ([2, 4, 6, 8] : List ℕ)) := by
    rw [validate_format_valid_iff, ← validate_format_cleaned]
    show _ ↔ (_ ∧ _ ∧ (validate_format hsn_code).cleaned_code.length ∈ valid_lengths)
    constructor
    · intro hmem
      refine ⟨fun hc => ?_, hdig, hmem⟩
      rw [hc] at hmem
      simp [valid_lengths, String.length] at hmem
    · exact fun h => h.2.2
  refine ⟨hiff, fun hlen => ?_⟩
  have hv : (validate_format hsn_code).valid = false := by
    cases hb : (validate_format hsn_code).valid
    · rfl
    · exact absurd (hiff.mp hb).2.2 hlen
  exact ⟨((full_validation_orchestration dh dh hsn_code).1 hv).2.1,
    ((full_validation_orchestration dh dh hsn_code).1 hv).1⟩

theorem validate_format_characterization_witness :
    ((validate_format "12345").cleaned_code.length ∉ ([2, 4, 6, 8] : List ℕ)) ∧
    ((full_validation dh0 "12345").format_valid = false ∧
     (full_validation dh0 "12345").overall_valid = false) :=
  ⟨by decide, (validate_format_characterization "12345" dh0).2 (by decide)⟩

lemma hierLoop_spec (dh : HSNDataHandler) (hsn_code : String) :
    ∀ (ls : List ℕ) (pc vp mp : List String),
      hierLoop dh hsn_code ls (pc, vp, mp) =
        (pc ++ (ls.filter (fun l => l < hsn_code.length)).map (strTake hsn_code),
         vp ++ ((ls.filter (fun l => l < hsn_code.length)).map
            (strTake hsn_code)).filter (fun p => (get_hsn_info dh p).isSome),
         mp ++ ((ls.filter (fun l => l < hsn_code.length)).map
            (strTake hsn_code)).filter (fun p => !(get_hsn_info dh p).isSome)) := by
  intro ls
  induction ls with
  | nil => intro pc vp mp; simp [hierLoop]
  | cons l ls ih =>
    intro pc vp mp
    by_cases hl : l < hsn_code.length
    · cases ho : get_hsn_info dh (strTake hsn_code l) with
      | none =>
        rw [hierLoop, if_pos hl, if_neg (by simp [ho]), ih]
        simp [List.filter_cons, hl, ho]
      | some v =>
        rw [hierLoop, if_pos hl, if_pos (by simp [ho]), ih]
        simp [List.filter_cons, hl, ho]
    · rw [hierLoop, if_neg hl, ih]
      simp [List.filter_cons, hl]

/-- C3: `validate_hierarchical` lists as `parent_codes` exactly the
prefixes of the code at those of the lengths 2, 4, 6 that are strictly
shorter than the code, in ascending length order; `valid_parents` and
`missing_parents` are the catalog-present and catalog-absent ones among
them; the code is hierarchy-valid exactly when `missing_parents` is empty;
and a code of length at most 2 has no parents and is hierarchy-valid. -/
theorem validate_hierarchical_characterization (dh : HSNDataHandler) (hsn_code : String) :
    (validate_hierarchical dh hsn_code).parent_codes =
      (([2, 4, 6] : List ℕ).filter (fun l => l < hsn_code.length)).map (strTake hsn_code) ∧
    (validate_hierarchical dh hsn_code).valid_parents =
      (validate_hierarchical dh hsn_code).parent_codes.filter
        (fun p => (get_hsn_info dh p).isSome) ∧
    (validate_hierarchical dh hsn_code).missing_parents =
      (validate_hierarchical dh hsn_code).parent_codes.filter
        (fun p => !(get_hsn_info dh p).isSome) ∧
    ((validate_hierarchical dh hsn_code).hierarchical_valid = true ↔
      (validate_hierarchical dh hsn_code).missing_parents = []) ∧
    (hsn_code.length ≤ 2 →
      (validate_hierarchical dh hsn_code).parent_codes = [] ∧
      (validate_hierarchical dh hsn_code).hierarchical_valid = true) := by
  unfold validate_hierarchical
  dsimp only
  split_ifs with h
  · have h2 : ¬ (2 < hsn_code.length) := by omega
    have h4 : ¬ (4 < hsn_code.length) := by omega
    have h6 : ¬ (6 < hsn_code.length) := by omega
    simp [List.filter_cons, h2, h4, h6]
  · rw [hierLoop_spec]
    refine ⟨?_, ?_, ?_, ?_, fun hc => absurd hc h⟩ <;> simp [List.isEmpty_iff]

theorem validate_hierarchical_characterization_witness :
    (("01" : String).length ≤ 2) ∧
    ((validate_hierarchical dh0 "01").parent_codes = [] ∧
     (validate_hierarchical dh0 "01").hierarchical_valid = true) :=
  ⟨by decide, (validate_hierarchical_characterization dh0 "01").2.2.2.2 (by decide)⟩

/-!
## Suggestion-engine theorems: result size and deduplication (C5, C6)
-/

lemma vecLoop_nodup (dh : HSNDataHandler) (sims : List ℚ) (k : ℕ) :
    ∀ (idxs : List ℕ) (sugg : List Suggestion) (seen : List String),
      (sugg.map Suggestion.hsn_code).Nodup →
      (∀ c, c ∈ sugg.map Suggestion.hsn_code ↔ c ∈ seen) →
      ((vecLoop dh sims k idxs sugg seen).1.map Suggestion.hsn_code).Nodup ∧
      (∀ c, c ∈ (vecLoop dh sims k idxs sugg seen).1.map Suggestion.hsn_code ↔
        c ∈ (vecLoop dh sims k idxs sugg seen).2) := by
  intro idxs
  induction idxs with
  | nil => intro sugg seen h1 h2; exact ⟨h1, h2⟩
  | cons idx rest ih =>
    intro sugg seen h1 h2
    rw [vecLoop]
    by_cases ht : min_similarity_threshold ≤ sims.getD idx 0
    · rw [if_pos ht]
      dsimp only
      by_cases hseen : (dh.hsn_data.getD idx ("", "")).1 ∈ seen
      · rw [if_pos hseen]
        exact ih sugg seen h1 h2
      · rw [if_neg hseen]
        have hcode : (mkVecSuggestion dh sims idx).hsn_code =
            (dh.hsn_data.getD idx ("", "")).1 := rfl
        have h1' : ((sugg ++ [mkVecSuggestion dh sims idx]).map
            Suggestion.hsn_code).Nodup := by
          rw [List.map_append]
          rw [List.nodup_append]
          refine ⟨h1, by simp, ?_⟩
          intro c hc
          simp only [List.map_cons, List.map_nil, List.mem_cons,
            List.not_mem_nil, or_false, hcode]
          intro hcon
          exact hseen (by rw [← hcon] ; exact (h2 c).mp hc)
        have h2' : ∀ c, c ∈ (sugg ++ [mkVecSuggestion dh sims idx]).map
            Suggestion.hsn_code ↔ c ∈ (dh.hsn_data.getD idx ("", "")).1 :: seen := by
          intro c
          rw [List.map_append]
          simp only [List.mem_append, List.map_cons, List.map_nil,
            List.mem_cons, List.not_mem_nil, or_false, List.mem_singleton, hcode]
          constructor
          · rintro (hc | hc)
            · exact Or.inr ((h2 c).mp hc)
            · exact Or.inl hc
          · rintro (hc | hc)
            · exact Or.inr hc
            · exact Or.inl ((h2 c).mpr hc)
        by_cases hbreak : k ≤ (sugg ++ [mkVecSuggestion dh sims idx]).length
        · rw [if_pos hbreak]
          exact ⟨h1', h2'⟩
        · rw [if_neg hbreak]
          exact ih _ _ h1' h2'
    · rw [if_neg ht]
      exact ih sugg seen h1 h2

lemma kwInner_nodup (limit : ℕ) :
    ∀ (rows : List (String × String)) (sugg : List Suggestion) (seen : List String),
      (sugg.map Suggestion.hsn_code).Nodup →
      (∀ c, c ∈ sugg.map Suggestion.hsn_code ↔ c ∈ seen) →
      ((kwInner limit rows sugg seen).1.map Suggestion.hsn_code).Nodup ∧
      (∀ c, c ∈ (kwInner limit rows sugg seen).1.map Suggestion.hsn_code ↔
        c ∈ (kwInner limit rows sugg seen).2) := by
  intro rows
  induction rows with
  | nil => intro sugg seen h1 h2; exact ⟨h1, h2⟩
  | cons r rs ih =>
    intro sugg seen h1 h2
    rw [kwInner]
    by_cases hseen : r.1 ∈ seen
    · rw [if_pos hseen]
      exact ih sugg seen h1 h2
    · rw [if_neg hseen]
      dsimp only
      have h1' : ((sugg ++ [(⟨r.1, r.2, mkRat 1 10, "Low", "keyword_search"⟩ :
          Suggestion)]).map Suggestion.hsn_code).Nodup := by
        rw [List.map_append, List.nodup_append]
        refine ⟨h1, by simp, ?_⟩
        intro c hc
        simp only [List.map_cons, List.map_nil, List.mem_cons,
          List.not_mem_nil, or_false]
        intro hcon
        exact hseen (by rw [← hcon] ; exact (h2 c).mp hc)
      have h2' : ∀ c, c ∈ (sugg ++ [(⟨r.1, r.2, mkRat 1 10, "Low",
          "keyword_search"⟩ : Suggestion)]).map Suggestion.hsn_code ↔
          c ∈ r.1 :: seen := by
        intro c
        rw [List.map_append]
        simp only [List.mem_append, List.map_cons, List.map_nil,
          List.mem_cons, List.not_mem_nil, or_false, List.mem_singleton]
        constructor
        · rintro (hc | hc)
          · exact Or.inr ((h2 c).mp hc)
          · exact Or.inl hc
        · rintro (hc | hc)
          · exact Or.inr hc
          · exact Or.inl ((h2 c).mpr hc)
      by_cases hbreak : limit ≤ (sugg ++ [(⟨r.1, r.2, mkRat 1 10, "Low",
          "keyword_search"⟩ : Suggestion)]).length
      · rw [if_pos hbreak]
        exact ⟨h1', h2'⟩
      · rw [if_neg hbreak]
        exact ih _ _ h1' h2'

lemma kwOuter_nodup (dh : HSNDataHandler) (limit : ℕ) :
    ∀ (kws : List String) (sugg : List Suggestion) (seen : List String),
      (sugg.map Suggestion.hsn_code).Nodup →
      (∀ c, c ∈ sugg.map Suggestion.hsn_code ↔ c ∈ seen) →
      ((kwOuter dh limit kws sugg seen).map Suggestion.hsn_code).Nodup := by
  intro kws
  induction kws with
  | nil => intro sugg seen h1 h2; exact h1
  | cons kw kws ih =>
    intro sugg seen h1 h2
    rw [kwOuter]
    by_cases hlen : 2 < kw.length
    · rw [if_pos hlen]
      dsimp only
      have hres := kwInner_nodup limit
        (search_by_description dh kw (limit * 2)) sugg seen h1 h2
      by_cases hbreak : limit ≤ (kwInner limit
          (search_by_description dh kw (limit * 2)) sugg seen).1.length
      · rw [if_pos hbreak]
        exact hres.1
      · rw [if_neg hbreak]
        exact ih _ _ hres.1 hres.2
    · rw [if_neg hlen]
      exact ih sugg seen h1 h2

lemma keyword_based_search_nodup (dh : HSNDataHandler) (q : String) (limit : ℕ) :
    ((keyword_based_search dh q limit).map Suggestion.hsn_code).Nodup := by
  unfold keyword_based_search
  rw [List.map_take]
  exact (kwOuter_nodup dh limit (pySplit (lowerStr q)) [] []
    (by simp) (by simp)).sublist (List.take_sublist _ _)

lemma suggestFromScores_nodup (dh : HSNDataHandler) (sims : List ℚ)
    (q : String) (k : ℕ) :
    ((suggestFromScores dh sims q k).map Suggestion.hsn_code).Nodup := by
  unfold suggestFromScores
  dsimp only
  have hvec := vecLoop_nodup dh sims k (topIndices sims k) [] []
    (by simp) (by simp)
  rw [List.map_take]
  refine List.Nodup.sublist (List.take_sublist _ _) ?_
  split_ifs with hlt
  · rw [List.map_append, List.nodup_append]
    refine ⟨hvec.1, ?_, ?_⟩
    · exact (keyword_based_search_nodup dh q _).sublist
        ((List.filter_sublist _).map _)
    · intro c hc
      simp only [List.mem_map]
      rintro ⟨s, hs, rfl⟩
      have := List.of_mem_filter hs
      simp only [Bool.not_eq_true', decide_eq_false_iff_not] at this
      exact this ((hvec.2 _).mp hc)
  · exact hvec.1

/-- C5: `suggest_hsn_codes` never returns more than `top_k` results and
never returns two results with the same code, on the vector path, the
keyword path, the mixed path, and the error-recovery path alike. -/
theorem suggest_hsn_codes_bounded_nodup (dh : HSNDataHandler)
    (simsOrErr : Except Unit (List ℚ)) (q : String) (k : ℕ) (_hk : 1 ≤ k) :
    (suggest_hsn_codes dh simsOrErr q k).length ≤ k ∧
    ((suggest_hsn_codes dh simsOrErr q k).map Suggestion.hsn_code).Nodup := by
  unfold suggest_hsn_codes
  split_ifs with hq
  · simp
  · cases simsOrErr with
    | ok sims =>
      refine ⟨?_, suggestFromScores_nodup dh sims q k⟩
      unfold suggestFromScores
      dsimp only
      exact (List.length_take _ _).trans_le (min_le_left _ _)
    | error e =>
      refine ⟨?_, keyword_based_search_nodup dh q k⟩
      unfold keyword_based_search
      exact (List.length_take _ _).trans_le (min_le_left _ _)

theorem suggest_hsn_codes_bounded_nodup_witness :
    (1 ≤ 2) ∧
    ((suggest_hsn_codes dh7 (Except.ok [mkRat 1 2, 0]) "apple pie" 2).length ≤ 2 ∧
     ((suggest_hsn_codes dh7 (Except.ok [mkRat 1 2, 0]) "apple pie" 2).map
        Suggestion.hsn_code).Nodup) :=
  ⟨by decide, suggest_hsn_codes_bounded_nodup dh7 (Except.ok [mkRat 1 2, 0])
    "apple pie" 2 (by decide)⟩

/-- C6: an empty or whitespace-only query yields the empty suggestion list
(and, the embedding being total, no exception), whatever the catalog, the
similarity outcome and `top_k`. -/
theorem suggest_hsn_codes_empty_query (dh : HSNDataHandler)
    (simsOrErr : Except Unit (List ℚ)) (q : String) (k : ℕ)
    (hq : stripStr q = "") :
    suggest_hsn_codes dh simsOrErr q k = [] := by
  unfold suggest_hsn_codes
  rw [if_pos hq]

theorem suggest_hsn_codes_empty_query_witness :
    (stripStr "  " = "") ∧
    suggest_hsn_codes dh7 (Except.error ()) "  " 5 = [] :=
  ⟨by decide, suggest_hsn_codes_empty_query dh7 (Except.error ()) "  " 5 (by decide)⟩

/-!
## Ordering of the vector path (C4, C10)
-/

instance argsortRelTrans {α : Type} [LinearOrder α] : IsTrans (ℕ × α) argsortRel where
  trans := by
    rintro p q r (h1 | ⟨h1e, h1i⟩) (h2 | ⟨h2e, h2i⟩)
    · exact Or.inl (h1.trans h2)
    · exact Or.inl (h2e ▸ h1)
    · exact Or.inl (h1e ▸ h2)
    · exact Or.inr ⟨h1e.trans h2e, h1i.trans h2i⟩

instance argsortRelTotal {α : Type} [LinearOrder α] : IsTotal (ℕ × α) argsortRel where
  total := by
    intro p q
    rcases lt_trichotomy p.2 q.2 with h | h | h
    · exact Or.inl (Or.inl h)
    · rcases Nat.le_total p.1 q.1 with hi | hi
      · exact Or.inl (Or.inr ⟨h, hi⟩)
      · exact Or.inr (Or.inr ⟨h.symm, hi⟩)
    · exact Or.inr (Or.inl h)

lemma revArgsort_perm {α : Type} [LinearOrder α] (l : List α) :
    List.Perm (revArgsort l) (List.range l.length) := by
  unfold revArgsort
  refine (List.reverse_perm _).trans ?_
  rw [← List.enum_map_fst l]
  exact (List.perm_insertionSort argsortRel l.enum).map Prod.fst

lemma revArgsort_nodup {α : Type} [LinearOrder α] (l : List α) :
    (revArgsort l).Nodup :=
  (revArgsort_perm l).nodup_iff.mpr (List.nodup_range _)

lemma mem_revArgsort {α : Type} [LinearOrder α] {l : List α} {i : ℕ} :
    i ∈ revArgsort l ↔ i < l.length := by
  rw [(revArgsort_perm l).mem_iff, List.mem_range]

lemma mem_sorted_enum_facts {α : Type} [LinearOrder α] {l : List α} (d : α)
    {p : ℕ × α}
    (hp : p ∈ (List.insertionSort argsortRel l.enum).reverse) :
    p.1 < l.length ∧ l.getD p.1 d = p.2 := by
  rw [List.mem_reverse] at hp
  have hp2 : p ∈ l.enum := (List.perm_insertionSort argsortRel l.enum).mem_iff.mp hp
  have hg : l.get? p.1 = some p.2 := List.mem_enum_iff_get?.mp hp2
  have hlt : p.1 < l.length := by
    by_contra hc
    rw [List.get?_eq_none.mpr (Nat.le_of_not_lt hc)] at hg
    exact Option.noConfusion hg
  refine ⟨hlt, ?_⟩
  rw [List.getD_eq_get?, hg]
  rfl

lemma revArgsort_pairwise {α : Type} [LinearOrder α] (l : List α) (d : α) :
    (revArgsort l).Pairwise
      (fun i j => l.getD j d < l.getD i d ∨ (l.getD i d = l.getD j d ∧ j < i)) := by
  have hrev : revArgsort l =
      ((List.insertionSort argsortRel l.enum).reverse).map Prod.fst := by
    unfold revArgsort
    rw [List.map_reverse]
  rw [hrev, List.pairwise_map]
  have hsorted : List.Pairwise (flip argsortRel)
      ((List.insertionSort argsortRel l.enum).reverse) :=
    List.pairwise_reverse.mpr (List.sorted_insertionSort argsortRel l.enum)
  have hnodup : List.Pairwise (fun p q : ℕ × α => p.1 ≠ q.1)
      ((List.insertionSort argsortRel l.enum).reverse) := by
    have : (((List.insertionSort argsortRel l.enum).reverse).map Prod.fst).Nodup := by
      rw [← hrev]
      exact revArgsort_nodup l
    exact List.pairwise_map.mp this
  refine ((hsorted.and hnodup).imp_of_mem ?_)
  intro p q hp hq hpq
  obtain ⟨hplt, hpd⟩ := mem_sorted_enum_facts d hp
  obtain ⟨hqlt, hqd⟩ := mem_sorted_enum_facts d hq
  rcases hpq.1 with h | ⟨he, hi⟩
  · exact Or.inl (by rw [hpd, hqd]; exact h)
  · refine Or.inr ⟨by rw [hpd, hqd]; exact he.symm, ?_⟩
    exact lt_of_le_of_ne hi (fun hc => hpq.2 hc.symm)



lemma vecLoop_sel (dh : HSNDataHandler) (sims : List ℚ) (k : ℕ) :
    ∀ (idxs : List ℕ) (sugg : List Suggestion) (seen : List String),
      ∃ sel : List ℕ, sel.Sublist idxs ∧
        (vecLoop dh sims k idxs sugg seen).1 =
          sugg ++ sel.map (mkVecSuggestion dh sims) := by
  intro idxs
  induction idxs with
  | nil => intro sugg seen; exact ⟨[], List.Sublist.refl _, by simp [vecLoop]⟩
  | cons idx rest ih =>
    intro sugg seen
    rw [vecLoop]
    by_cases ht : min_similarity_threshold ≤ sims.getD idx 0
    · rw [if_pos ht]
      dsimp only
      by_cases hseen : (dh.hsn_data.getD idx ("", "")).1 ∈ seen
      · rw [if_pos hseen]
        obtain ⟨sel, hsub, heq⟩ := ih sugg seen
        exact ⟨sel, hsub.cons idx, heq⟩
      · rw [if_neg hseen]
        by_cases hbreak : k ≤ (sugg ++ [mkVecSuggestion dh sims idx]).length
        · rw [if_pos hbreak]
          exact ⟨[idx], (List.nil_sublist rest).cons₂ idx, rfl⟩
        · rw [if_neg hbreak]
          obtain ⟨sel, hsub, heq⟩ := ih (sugg ++ [mkVecSuggestion dh sims idx])
            ((dh.hsn_data.getD idx ("", "")).1 :: seen)
          exact ⟨idx :: sel, hsub.cons₂ idx, by
            rw [heq, List.append_assoc]
            rfl⟩
    · rw [if_neg ht]
      obtain ⟨sel, hsub, heq⟩ := ih sugg seen
      exact ⟨sel, hsub.cons idx, heq⟩

lemma vectorSuggestions_eq (dh : HSNDataHandler) (sims : List ℚ) (k : ℕ) :
    ∃ sel : List ℕ, sel.Sublist (topIndices sims k) ∧
      vectorSuggestions dh sims k = sel.map (mkVecSuggestion dh sims) := by
  obtain ⟨sel, hsub, heq⟩ := vecLoop_sel dh sims k (topIndices sims k) [] []
  exact ⟨sel, hsub, by rw [vectorSuggestions, heq, List.nil_append]⟩

lemma rowIndex_of_nodup (dh : HSNDataHandler)
    (h2 : (dh.hsn_data.map Prod.fst).Nodup) (i : ℕ)
    (hi : i < dh.hsn_data.length) :
    rowIndex dh (dh.hsn_data.getD i ("", "")).1 = i := by
  have hlen : i < (dh.hsn_data.map Prod.fst).length := by simpa using hi
  have hcode : (dh.hsn_data.getD i ("", "")).1 =
      (dh.hsn_data.map Prod.fst).getD i "" := by
    rw [List.getD_eq_getElem _ _ hi, List.getD_eq_getElem _ _ hlen]
    simp
  rw [rowIndex, hcode, List.getD_eq_getElem _ _ hlen]
  exact List.indexOf_getElem h2 i hlen

/-- C4 (amended): the vector-similarity portion of the suggestions comes
out sorted by weakly descending cosine score.  The program guarantees no
particular order among entries with equal scores — numpy's default sort
leaves equal elements unordered in general — and in particular ties are
*not* broken by ascending catalog insertion index: in the regime numpy
actually runs on small arrays the `[::-1]` reversal puts the tied entry
with the larger index first, as the counterexample exhibits. -/
theorem vector_portion_sorted (dh : HSNDataHandler) (sims : List ℚ) (k : ℕ) :
    (vectorSuggestions dh sims k).Pairwise
      (fun a b => b.similarity_score ≤ a.similarity_score) := by
  obtain ⟨sel, hsub, heq⟩ := vectorSuggestions_eq dh sims k
  rw [heq, List.pairwise_map]
  have hpw : sel.Pairwise
      (fun i j => sims.getD j 0 < sims.getD i 0 ∨
        (sims.getD i 0 = sims.getD j 0 ∧ j < i)) :=
    ((revArgsort_pairwise sims 0).sublist (List.take_sublist _ _)).sublist hsub
  refine hpw.imp ?_
  intro i j hij
  rcases hij with h | ⟨he, _⟩
  · exact le_of_lt h
  · exact le_of_eq he.symm



theorem suggest_tie_order_counterexample :
    suggest_hsn_codes dh4 (Except.ok [mkRat 1 2, mkRat 1 2]) "xy" 5 =
      [⟨"20", "aa cc", mkRat 1 2, "Medium", "ml_similarity"⟩,
       ⟨"10", "aa bb", mkRat 1 2, "Medium", "ml_similarity"⟩] ∧
    ¬ (suggest_hsn_codes dh4 (Except.ok [mkRat 1 2, mkRat 1 2]) "xy" 5).Pairwise
      (fun a b => b.similarity_score < a.similarity_score ∨
        (a.similarity_score = b.similarity_score ∧
          rowIndex dh4 a.hsn_code < rowIndex dh4 b.hsn_code)) :=
  ⟨by decide, by decide⟩

/-- C10: the vector path draws its candidates only from the
`top_k * 2`-element window of the reversed argsort; a catalog row whose
position is outside that window is never returned by the vector portion,
whether or not deduplication left fewer than `top_k` results. -/
theorem vector_candidates_within_window (dh : HSNDataHandler) (sims : List ℚ)
    (k : ℕ) (h1 : sims.length = dh.hsn_data.length)
    (h2 : (dh.hsn_data.map Prod.fst).Nodup) (i : ℕ)
    (hi : i < dh.hsn_data.length) (hnot : i ∉ topIndices sims k) :
    (dh.hsn_data.getD i ("", "")).1 ∉
      (vectorSuggestions dh sims k).map Suggestion.hsn_code := by
  obtain ⟨sel, hsub, heq⟩ := vectorSuggestions_eq dh sims k
  rw [heq]
  intro hmem
  simp only [List.map_map, List.mem_map, Function.comp] at hmem
  obtain ⟨j, hj, hjc⟩ := hmem
  have hjtop : j ∈ topIndices sims k := hsub.mem hj
  have hjlt : j < dh.hsn_data.length := by
    rw [← h1]
    exact mem_revArgsort.mp (List.mem_of_mem_take hjtop)
  have hcode : (mkVecSuggestion dh sims j).hsn_code =
      (dh.hsn_data.getD j ("", "")).1 := rfl
  have hij : j = i := by
    have h3 := congrArg (rowIndex dh) (hcode ▸ hjc)
    rwa [rowIndex_of_nodup dh h2 j hjlt, rowIndex_of_nodup dh h2 i hi] at h3
  exact hnot (hij ▸ hjtop)

theorem vector_candidates_within_window_witness :
    (([(1 : ℚ), mkRat 1 2, mkRat 1 2] : List ℚ).length = dh10.hsn_data.length ∧
      (dh10.hsn_data.map Prod.fst).Nodup ∧
      1 < dh10.hsn_data.length ∧
      1 ∉ topIndices [(1 : ℚ), mkRat 1 2, mkRat 1 2] 1) ∧
    (dh10.hsn_data.getD 1 ("", "")).1 ∉
      (vectorSuggestions dh10 [(1 : ℚ), mkRat 1 2, mkRat 1 2] 1).map
        Suggestion.hsn_code :=
  ⟨⟨by decide, by decide, by decide, by decide⟩,
    vector_candidates_within_window dh10 [(1 : ℚ), mkRat 1 2, mkRat 1 2] 1
      (by decide) (by decide) 1 (by decide) (by decide)⟩

/-!
## Keyword fallback (C7, C8)
-/

lemma search_by_description_mem (dh : HSNDataHandler) (q : String) (m : ℕ)
    {r : String × String} (hr : r ∈ search_by_description dh q m) :
    r ∈ dh.hsn_data ∧
      strContains (lowerStr r.2).toList (stripStr (lowerStr q)).toList = true := by
  unfold search_by_description at hr
  have h1 := List.mem_of_mem_take hr
  have h2 := List.mem_filter.mp h1
  exact ⟨h2.1, h2.2⟩

lemma kwInner_mem (limit : ℕ) :
    ∀ (rows : List (String × String)) (sugg : List Suggestion)
      (seen : List String) (s : Suggestion), s ∈ (kwInner limit rows sugg seen).1 →
      s ∈ sugg ∨ ∃ r ∈ rows,
        s = (⟨r.1, r.2, mkRat 1 10, "Low", "keyword_search"⟩ : Suggestion) := by
  intro rows
  induction rows with
  | nil => intro sugg seen s hs; exact Or.inl hs
  | cons r rs ih =>
    intro sugg seen s hs
    rw [kwInner] at hs
    by_cases hseen : r.1 ∈ seen
    · rw [if_pos hseen] at hs
      rcases ih sugg seen s hs with h | ⟨r0, hr0, he⟩
      · exact Or.inl h
      · exact Or.inr ⟨r0, List.mem_cons_of_mem r hr0, he⟩
    · rw [if_neg hseen] at hs
      dsimp only at hs
      by_cases hbreak : limit ≤ (sugg ++ [(⟨r.1, r.2, mkRat 1 10, "Low",
          "keyword_search"⟩ : Suggestion)]).length
      · rw [if_pos hbreak] at hs
        rcases List.mem_append.mp hs with h | h
        · exact Or.inl h
        · exact Or.inr ⟨r, List.mem_cons_self r rs, List.mem_singleton.mp h⟩
      · rw [if_neg hbreak] at hs
        rcases ih _ _ s hs with h | ⟨r0, hr0, he⟩
        · rcases List.mem_append.mp h with h | h
          · exact Or.inl h
          · exact Or.inr ⟨r, List.mem_cons_self r rs, List.mem_singleton.mp h⟩
        · exact Or.inr ⟨r0, List.mem_cons_of_mem r hr0, he⟩

lemma kwOuter_mem (dh : HSNDataHandler) (limit : ℕ) :
    ∀ (kws : List String) (sugg : List Suggestion) (seen : List String)
      (s : Suggestion), s ∈ kwOuter dh limit kws sugg seen →
      s ∈ sugg ∨ ∃ kw ∈ kws, 2 < kw.length ∧ ∃ r ∈ dh.hsn_data,
        strContains (lowerStr r.2).toList (stripStr (lowerStr kw)).toList = true ∧
        s = (⟨r.1, r.2, mkRat 1 10, "Low", "keyword_search"⟩ : Suggestion) := by
  intro kws
  induction kws with
  | nil => intro sugg seen s hs; exact Or.inl hs
  | cons kw kws ih =>
    intro sugg seen s hs
    rw [kwOuter] at hs
    by_cases hlen : 2 < kw.length
    · rw [if_pos hlen] at hs
      dsimp only at hs
      have hstep : s ∈ (kwInner limit (search_by_description dh kw (limit * 2))
          sugg seen).1 → s ∈ sugg ∨ ∃ kw0 ∈ kw :: kws, 2 < kw0.length ∧
          ∃ r ∈ dh.hsn_data,
          strContains (lowerStr r.2).toList (stripStr (lowerStr kw0)).toList = true ∧
          s = (⟨r.1, r.2, mkRat 1 10, "Low", "keyword_search"⟩ : Suggestion) := by
        intro hmem
        rcases kwInner_mem limit _ sugg seen s hmem with h | ⟨r, hr, he⟩
        · exact Or.inl h
        · obtain ⟨hrow, hcontains⟩ := search_by_description_mem dh kw (limit * 2) hr
          exact Or.inr ⟨kw, List.mem_cons_self kw kws, hlen, r, hrow, hcontains, he⟩
      by_cases hbreak : limit ≤ (kwInner limit
          (search_by_description dh kw (limit * 2)) sugg seen).1.length
      · rw [if_pos hbreak] at hs
        exact hstep hs
      · rw [if_neg hbreak] at hs
        rcases ih _ _ s hs with h | ⟨kw0, hkw0, h3⟩
        · exact hstep h
        · exact Or.inr ⟨kw0, List.mem_cons_of_mem kw hkw0, h3⟩
    · rw [if_neg hlen] at hs
      rcases ih sugg seen s hs with h | ⟨kw0, hkw0, h3⟩
      · exact Or.inl h
      · exact Or.inr ⟨kw0, List.mem_cons_of_mem kw hkw0, h3⟩

lemma keyword_based_search_mem (dh : HSNDataHandler) (q : String) (limit : ℕ)
    {s : Suggestion} (hs : s ∈ keyword_based_search dh q limit) :
    ∃ kw ∈ pySplit (lowerStr q), 2 < kw.length ∧ ∃ r ∈ dh.hsn_data,
      strContains (lowerStr r.2).toList (stripStr (lowerStr kw)).toList = true ∧
      s = (⟨r.1, r.2, mkRat 1 10, "Low", "keyword_search"⟩ : Suggestion) := by
  unfold keyword_based_search at hs
  rcases kwOuter_mem dh limit (pySplit (lowerStr q)) [] [] s
      (List.mem_of_mem_take hs) with h | h
  · exact absurd h (List.not_mem_nil s)
  · exact h

/-- C7 (amended): when the vector portion falls short of `top_k`, the
fallback is invoked with the *remaining quota* `top_k - |vector portion|`;
it token-splits the lowercased query, skips tokens of length ≤ 2, matches
catalog rows by case-insensitive substring search, tags matches with score
0.1, confidence "Low" and the keyword method, and produces at most the
quota; back in `suggest_hsn_codes`, fallback results whose code already
appears among the vector results are dropped *without replacement* — the
fallback's internal deduplication is only against its own previous
matches, so the combined list can stay below `top_k` even when further
matching rows exist. -/
theorem keyword_fallback_behavior (dh : HSNDataHandler) (sims : List ℚ)
    (q : String) (k : ℕ) (hshort : (vectorSuggestions dh sims k).length < k) :
    suggestFromScores dh sims q k =
      (vectorSuggestions dh sims k ++
        (keyword_based_search dh q (k - (vectorSuggestions dh sims k).length)).filter
          (fun s => !decide (s.hsn_code ∈
            (vecLoop dh sims k (topIndices sims k) [] []).2))).take k ∧
    (keyword_based_search dh q (k - (vectorSuggestions dh sims k).length)).length ≤
      k - (vectorSuggestions dh sims k).length ∧
    ∀ s ∈ keyword_based_search dh q (k - (vectorSuggestions dh sims k).length),
      s.similarity_score = mkRat 1 10 ∧ s.confidence_level = "Low" ∧
      s.match_type = "keyword_search" ∧
      ∃ kw ∈ pySplit (lowerStr q), 2 < kw.length ∧ ∃ r ∈ dh.hsn_data,
        strContains (lowerStr r.2).toList (stripStr (lowerStr kw)).toList = true ∧
        s.hsn_code = r.1 ∧ s.description = r.2 := by
  refine ⟨?_, ?_, ?_⟩
  · unfold vectorSuggestions at hshort
    unfold suggestFromScores vectorSuggestions
    dsimp only
    rw [if_pos hshort]
  · unfold keyword_based_search
    exact (List.length_take _ _).trans_le (min_le_left _ _)
  · intro s hs
    obtain ⟨kw, hkw, hlen, r, hrow, hcontains, he⟩ :=
      keyword_based_search_mem dh q _ hs
    subst he
    exact ⟨rfl, rfl, rfl, kw, hkw, hlen, r, hrow, hcontains, rfl, rfl⟩

theorem keyword_fallback_behavior_witness :
    ((vectorSuggestions dh7 [mkRat 1 2, 0] 2).length < 2) ∧
    (suggestFromScores dh7 [mkRat 1 2, 0] "apple pie" 2 =
      (vectorSuggestions dh7 [mkRat 1 2, 0] 2 ++
        (keyword_based_search dh7 "apple pie"
            (2 - (vectorSuggestions dh7 [mkRat 1 2, 0] 2).length)).filter
          (fun s => !decide (s.hsn_code ∈
            (vecLoop dh7 [mkRat 1 2, 0] 2 (topIndices [mkRat 1 2, 0] 2) [] []).2))).take 2 ∧
    (keyword_based_search dh7 "apple pie"
        (2 - (vectorSuggestions dh7 [mkRat 1 2, 0] 2).length)).length ≤
      2 - (vectorSuggestions dh7 [mkRat 1 2, 0] 2).length ∧
    ∀ s ∈ keyword_based_search dh7 "apple pie"
        (2 - (vectorSuggestions dh7 [mkRat 1 2, 0] 2).length),
      s.similarity_score = mkRat 1 10 ∧ s.confidence_level = "Low" ∧
      s.match_type = "keyword_search" ∧
      ∃ kw ∈ pySplit (lowerStr "apple pie"), 2 < kw.length ∧ ∃ r ∈ dh7.hsn_data,
        strContains (lowerStr r.2).toList (stripStr (lowerStr kw)).toList = true ∧
        s.hsn_code = r.1 ∧ s.description = r.2) :=
  ⟨by decide, keyword_fallback_behavior dh7 [mkRat 1 2, 0] "apple pie" 2 (by decide)⟩

theorem keyword_fallback_quota_counterexample :
    suggestFromScores dh7 [mkRat 1 2, 0] "apple pie" 2 =
      [⟨"10", "apple pie", mkRat 1 2, "Medium", "ml_similarity"⟩] ∧
    (suggestFromScores dh7 [mkRat 1 2, 0] "apple pie" 2).length < 2 ∧
    "apple" ∈ pySplit (lowerStr "apple pie") ∧ 2 < ("apple" : String).length ∧
    ("20", "apple tart") ∈ dh7.hsn_data ∧
    strContains (lowerStr "apple tart").toList
      (stripStr (lowerStr "apple")).toList = true ∧
    "20" ∉ (suggestFromScores dh7 [mkRat 1 2, 0] "apple pie" 2).map
      Suggestion.hsn_code := by
  refine ⟨by decide, by decide, by decide, by decide, by decide, by decide, by decide⟩

/-- C8 (amended): when the similarity query raises, `suggest_hsn_codes`
swallows the error and returns the ordinary *token-splitting* keyword
fallback over the original query with limit `top_k` (not a whole-string
search); no error reaches the caller, the embedding being total. -/
theorem index_error_falls_back (dh : HSNDataHandler) (q : String) (k : ℕ)
    (hq : stripStr q ≠ "") :
    suggest_hsn_codes dh (Except.error ()) q k = keyword_based_search dh q k := by
  unfold suggest_hsn_codes
  rw [if_neg hq]

theorem index_error_falls_back_witness :
    (stripStr "apple pie" ≠ "") ∧
    suggest_hsn_codes dh8 (Except.error ()) "apple pie" 5 =
      keyword_based_search dh8 "apple pie" 5 :=
  ⟨by decide, index_error_falls_back dh8 "apple pie" 5 (by decide)⟩

theorem index_error_token_split_counterexample :
    suggest_hsn_codes dh8 (Except.error ()) "apple pie" 5 =
      [⟨"10", "pie apple crumble", mkRat 1 10, "Low", "keyword_search"⟩] ∧
    whole_string_keyword_search dh8 "apple pie" 5 = [] ∧
    suggest_hsn_codes dh8 (Except.error ()) "apple pie" 5 ≠
      whole_string_keyword_search dh8 "apple pie" 5 := by
  refine ⟨by decide, by decide, by decide⟩

/-!
## Similarity-index round trip (C9)
-/

lemma dotp_self (v : List ℝ) :
    dotp v v = ∑ i ∈ Finset.range v.length, v.getD i 0 ^ 2 := by
  unfold dotp
  rw [min_self]
  exact Finset.sum_congr rfl (fun i _ => (sq (v.getD i 0)).symm)

lemma sumSq_nonneg (v : List ℝ) :
    0 ≤ ∑ i ∈ Finset.range v.length, v.getD i 0 ^ 2 :=
  Finset.sum_nonneg (fun i _ => sq_nonneg _)

lemma l2norm_eq_zero_iff (v : List ℝ) :
    l2norm v = 0 ↔ ∀ i ∈ Finset.range v.length, v.getD i 0 = 0 := by
  unfold l2norm
  rw [Real.sqrt_eq_zero (sumSq_nonneg v)]
  rw [Finset.sum_eq_zero_iff_of_nonneg (fun i _ => sq_nonneg _)]
  constructor
  · intro h i hi
    exact pow_eq_zero_iff (by norm_num) |>.mp (h i hi)
  · intro h i hi
    rw [h i hi]
    ring

lemma cosSim_self_eq_one (v : List ℝ) (h : l2norm v ≠ 0) : cosSim v v = 1 := by
  unfold cosSim
  rw [dotp_self]
  have hs : l2norm v * l2norm v = ∑ i ∈ Finset.range v.length, v.getD i 0 ^ 2 :=
    Real.mul_self_sqrt (sumSq_nonneg v)
  rw [hs]
  have hne : (∑ i ∈ Finset.range v.length, v.getD i 0 ^ 2) ≠ 0 := by
    intro hc
    exact h (by unfold l2norm; rw [hc, Real.sqrt_zero])
  exact div_self hne

lemma cosSim_zero_left (u v : List ℝ) (h : l2norm u = 0) : cosSim u v = 0 := by
  unfold cosSim
  have hz := (l2norm_eq_zero_iff u).mp h
  have hd : dotp u v = 0 := by
    unfold dotp
    refine Finset.sum_eq_zero (fun i hi => ?_)
    rw [hz i (Finset.mem_range.mpr
      (lt_of_lt_of_le (Finset.mem_range.mp hi) (min_le_left _ _))), zero_mul]
  rw [hd, zero_div]

lemma cosSim_le_one (u v : List ℝ) (hl : u.length = v.length) : cosSim u v ≤ 1 := by
  by_cases hu : l2norm u = 0
  · rw [cosSim_zero_left u v hu]
    norm_num
  by_cases hv : l2norm v = 0
  · unfold cosSim
    have hz := (l2norm_eq_zero_iff v).mp hv
    have hd : dotp u v = 0 := by
      unfold dotp
      refine Finset.sum_eq_zero (fun i hi => ?_)
      rw [hz i (Finset.mem_range.mpr
        (lt_of_lt_of_le (Finset.mem_range.mp hi) (min_le_right _ _))), mul_zero]
    rw [hd, zero_div]
    norm_num
  · have hupos : 0 < l2norm u :=
      lt_of_le_of_ne (Real.sqrt_nonneg _) (Ne.symm hu)
    have hvpos : 0 < l2norm v :=
      lt_of_le_of_ne (Real.sqrt_nonneg _) (Ne.symm hv)
    unfold cosSim
    rw [div_le_one (mul_pos hupos hvpos)]
    unfold dotp l2norm
    rw [hl, min_self]
    exact Real.sum_mul_le_sqrt_mul_sqrt (Finset.range v.length)
      (fun i => u.getD i 0) (fun i => v.getD i 0)

lemma cosSim_le_self (u v : List ℝ) (hl : v.length = u.length) :
    cosSim u v ≤ cosSim u u := by
  by_cases hu : l2norm u = 0
  · rw [cosSim_zero_left u v hu, cosSim_zero_left u u hu]
  · rw [cosSim_self_eq_one u hu]
    exact cosSim_le_one u v hl.symm



lemma weightVec_length (docs : List String) (text : String) :
    (weightVec docs text).length = (vocabOf docs).length := by
  unfold weightVec
  exact List.length_map _ _

lemma tfidfSims_length (docs : List String) (q : String) :
    (tfidfSims docs q).length = docs.length := by
  unfold tfidfSims
  exact List.length_map _ _

lemma tfidfSims_getD (docs : List String) (q : String) (j : ℕ)
    (hj : j < docs.length) :
    (tfidfSims docs q).getD j 0 =
      cosSim (weightVec docs q) (weightVec docs (docs.getD j "")) := by
  have hj' : j < (tfidfSims docs q).length := by
    rw [tfidfSims_length]; exact hj
  rw [List.getD_eq_getElem _ _ hj', List.getD_eq_getElem _ _ hj]
  unfold tfidfSims
  rw [List.getElem_map]

lemma getD_indexOf_self {d : String} {docs : List String} (hd : d ∈ docs) :
    docs.getD (List.indexOf d docs) "" = d := by
  have hlt : List.indexOf d docs < docs.length := List.indexOf_lt_length.mpr hd
  rw [List.getD_eq_getElem _ _ hlt]
  exact List.getElem_indexOf hlt

lemma tfidfSims_self_max (docs : List String) (d : String) (hd : d ∈ docs) :
    ∀ j, j < docs.length →
      (tfidfSims docs d).getD j 0 ≤
        (tfidfSims docs d).getD (List.indexOf d docs) 0 := by
  intro j hj
  have hlt : List.indexOf d docs < docs.length := List.indexOf_lt_length.mpr hd
  rw [tfidfSims_getD docs d j hj, tfidfSims_getD docs d _ hlt,
    getD_indexOf_self hd]
  exact cosSim_le_self (weightVec docs d) (weightVec docs (docs.getD j ""))
    (by rw [weightVec_length, weightVec_length])

lemma revArgsort_head_max {α : Type} [LinearOrder α] (l : List α) (d : α)
    (hne : l ≠ []) :
    ∃ i, (revArgsort l).head? = some i ∧ i < l.length ∧
      ∀ j, j < l.length → l.getD j d ≤ l.getD i d := by
  have hrev : revArgsort l =
      ((List.insertionSort argsortRel l.enum).reverse).map Prod.fst := by
    unfold revArgsort
    rw [List.map_reverse]
  have hlen : ((List.insertionSort argsortRel l.enum).reverse).length = l.length := by
    rw [List.length_reverse, (List.perm_insertionSort argsortRel l.enum).length_eq,
      List.enum_length]
  have hne2 : (List.insertionSort argsortRel l.enum).reverse ≠ [] := by
    intro hc
    rw [hc] at hlen
    exact hne (List.length_eq_zero.mp hlen.symm)
  obtain ⟨p, t, hpt⟩ := List.exists_cons_of_ne_nil hne2
  have hpmem : p ∈ (List.insertionSort argsortRel l.enum).reverse := by
    rw [hpt]; exact List.mem_cons_self p t
  obtain ⟨hplt, hpd⟩ := mem_sorted_enum_facts d hpmem
  refine ⟨p.1, by rw [hrev, hpt]; rfl, hplt, ?_⟩
  intro j hj
  have hpw1 : List.Pairwise (flip argsortRel)
      ((List.insertionSort argsortRel l.enum).reverse) :=
    List.pairwise_reverse.mpr (List.sorted_insertionSort argsortRel l.enum)
  have hjmem : (j, l.getD j d) ∈ l.enum := by
    rw [List.mem_enum_iff_get?]
    rw [List.get?_eq_get hj, List.getD_eq_get _ _ hj]
  have hjmem2 : (j, l.getD j d) ∈ (List.insertionSort argsortRel l.enum).reverse := by
    rw [List.mem_reverse]
    exact (List.perm_insertionSort argsortRel l.enum).mem_iff.mpr hjmem
  rw [hpt] at hjmem2
  rcases List.mem_cons.mp hjmem2 with hcase | hcase
  · rw [hpd]
    exact le_of_eq (congrArg Prod.snd hcase)
  · rw [hpt] at hpw1
    have hrel := (List.pairwise_cons.mp hpw1).1 _ hcase
    rw [hpd]
    rcases hrel with h | ⟨he, _⟩
    · exact le_of_lt h
    · exact le_of_eq he

/-- C9 (amended): querying the similarity index with a catalog description
`d` verbatim gives `d`'s own entry a score at least as large as every other
entry's (self-similarity is maximal), and the rank-0 entry of the ranking
— while not necessarily `d`'s own entry — carries exactly that maximal
score. -/
theorem self_query_score_maximal (docs : List String) (d : String)
    (hd : d ∈ docs) :
    (∀ j, j < docs.length →
      (tfidfSims docs d).getD j 0 ≤
        (tfidfSims docs d).getD (List.indexOf d docs) 0) ∧
    ∃ i, (queryRanking docs d).head? = some i ∧ i < docs.length ∧
      (tfidfSims docs d).getD i 0 =
        (tfidfSims docs d).getD (List.indexOf d docs) 0 := by
  refine ⟨tfidfSims_self_max docs d hd, ?_⟩
  have hne : tfidfSims docs d ≠ [] := by
    intro hc
    have := congrArg List.length hc
    rw [tfidfSims_length] at this
    exact (List.ne_nil_of_mem hd) (List.length_eq_zero.mp this)
  obtain ⟨i, hhead, hilt, hmax⟩ := revArgsort_head_max (tfidfSims docs d) 0 hne
  rw [tfidfSims_length] at hilt hmax
  refine ⟨i, hhead, hilt, ?_⟩
  exact le_antisymm (tfidfSims_self_max docs d hd i hilt)
    (hmax _ (List.indexOf_lt_length.mpr hd))



lemma vocabOf_docs9 : vocabOf docs9 = ["dog", "fox"] := by decide

lemma weightVec9_the_fox : weightVec docs9 "the fox" = [0, idf docs9 "fox"] := by
  unfold weightVec
  rw [vocabOf_docs9]
  simp only [List.map_cons, List.map_nil]
  rw [show termCount "dog" "the fox" = 0 from by decide,
    show termCount "fox" "the fox" = 1 from by decide]
  norm_num

lemma weightVec9_a_fox : weightVec docs9 "a fox" = [0, idf docs9 "fox"] := by
  unfold weightVec
  rw [vocabOf_docs9]
  simp only [List.map_cons, List.map_nil]
  rw [show termCount "dog" "a fox" = 0 from by decide,
    show termCount "fox" "a fox" = 1 from by decide]
  norm_num

lemma weightVec9_dog : weightVec docs9 "dog" = [idf docs9 "dog", 0] := by
  unfold weightVec
  rw [vocabOf_docs9]
  simp only [List.map_cons, List.map_nil]
  rw [show termCount "dog" "dog" = 1 from by decide,
    show termCount "fox" "dog" = 0 from by decide]
  norm_num

lemma idf_fox_pos : 0 < idf docs9 "fox" := by
  unfold idf
  rw [show docFreq docs9 "fox" = 2 from by decide,
    show docs9.length = 3 from by decide]
  have h := Real.log_nonneg (show (1:ℝ) ≤ (1 + 3) / (1 + 2) by norm_num)
  linarith

lemma l2norm_0F_ne (F : ℝ) (hF : 0 < F) : l2norm [0, F] ≠ 0 := by
  intro hc
  have h1 := (l2norm_eq_zero_iff [0, F]).mp hc 1 (by simp)
  simp [List.getD] at h1
  exact absurd h1 (ne_of_gt hF)

lemma dotp_0F_D0 (F D : ℝ) : dotp [0, F] [D, 0] = 0 := by
  unfold dotp
  simp [Finset.sum_range_succ, List.getD]

lemma tfidfSims9 : tfidfSims docs9 "the fox" = [1, 1, 0] := by
  have hmap : tfidfSims docs9 "the fox" =
      [cosSim (weightVec docs9 "the fox") (weightVec docs9 "the fox"),
       cosSim (weightVec docs9 "the fox") (weightVec docs9 "a fox"),
       cosSim (weightVec docs9 "the fox") (weightVec docs9 "dog")] := rfl
  rw [hmap, weightVec9_the_fox, weightVec9_a_fox, weightVec9_dog]
  rw [cosSim_self_eq_one _ (l2norm_0F_ne _ idf_fox_pos)]
  rw [show cosSim [0, idf docs9 "fox"] [idf docs9 "dog", 0] = 0 from by
    unfold cosSim
    rw [dotp_0F_D0]
    exact zero_div _]

lemma revArgsort_one_one_zero : revArgsort [(1:ℝ), 1, 0] = [1, 0, 2] := by
  have h1 : ¬ argsortRel ((1:ℕ), (1:ℝ)) (2, (0:ℝ)) := by
    unfold argsortRel
    push_neg
    norm_num
  have h2 : ¬ argsortRel ((0:ℕ), (1:ℝ)) (2, (0:ℝ)) := by
    unfold argsortRel
    push_neg
    norm_num
  have h3 : argsortRel ((0:ℕ), (1:ℝ)) (1, (1:ℝ)) := by
    unfold argsortRel
    norm_num
  unfold revArgsort
  rw [show ([(1:ℝ), 1, 0]).enum = [(0, (1:ℝ)), (1, (1:ℝ)), (2, (0:ℝ))] from rfl]
  rw [show List.insertionSort argsortRel [(0, (1:ℝ)), (1, (1:ℝ)), (2, (0:ℝ))] =
      List.orderedInsert argsortRel (0, (1:ℝ))
        (List.orderedInsert argsortRel (1, (1:ℝ))
          (List.orderedInsert argsortRel (2, (0:ℝ)) [])) from rfl]
  rw [List.orderedInsert, List.orderedInsert, if_neg h1, List.orderedInsert,
    List.orderedInsert, if_neg h2, List.orderedInsert, if_pos h3]
  rfl

lemma queryRanking9 : queryRanking docs9 "the fox" = [1, 0, 2] := by
  unfold queryRanking
  rw [tfidfSims9, revArgsort_one_one_zero]

theorem self_query_rank_counterexample :
    "the fox" ∈ docs9 ∧ List.indexOf "the fox" docs9 = 0 ∧
    (queryRanking docs9 "the fox").head? = some 1 ∧
    (queryRanking docs9 "the fox").head? ≠
      some (List.indexOf "the fox" docs9) := by
  refine ⟨by decide, by decide, by rw [queryRanking9]; rfl, ?_⟩
  rw [queryRanking9, show List.indexOf "the fox" docs9 = 0 from by decide]
  simp

theorem self_query_score_maximal_witness :
    ("the fox" ∈ docs9) ∧
    ((∀ j, j < docs9.length →
      (tfidfSims docs9 "the fox").getD j 0 ≤
        (tfidfSims docs9 "the fox").getD (List.indexOf "the fox" docs9) 0) ∧
    ∃ i, (queryRanking docs9 "the fox").head? = some i ∧ i < docs9.length ∧
      (tfidfSims docs9 "the fox").getD i 0 =
        (tfidfSims docs9 "the fox").getD (List.indexOf "the fox" docs9) 0) :=
  ⟨by decide, self_query_score_maximal docs9 "the fox" (by decide)⟩

end HSN
